import Mathlib

/-!
Shallow embedding of the bulk email sender application
(src/core/email_sender.py, src/core/excel_processor.py,
src/core/validators.py) and proofs about its claims.

Strings are modelled as Lean `String` / `List Char`; Python machine
behaviour that none of the claims exercise (unicode case folding beyond
ASCII, float rounding inside progress computation) is noted at the
definition it concerns.
-/

namespace EmailApp

/-- Python `str.lower` restricted to its ASCII action (the only case
mapping the repository's column names and templates exercise). -/
def lowerStr (s : String) : String :=
  ⟨s.data.map Char.toLower⟩

/-- One scanning pass of Python `str.replace`: at each position, if `pat`
matches, emit `rep` and resume after the match (the inserted replacement
is not rescanned); otherwise copy one character.  `fuel` bounds the
number of scanning steps; since every step consumes at least one input
character, `fuel = s.length` computes the full replacement. -/
def strReplaceGo (pat rep : List Char) : Nat → List Char → List Char
  | 0, s => s
  | _ + 1, [] => []
  | fuel + 1, c :: rest =>
    if pat.isPrefixOf (c :: rest) then
      rep ++ strReplaceGo pat rep fuel ((c :: rest).drop pat.length)
    else
      c :: strReplaceGo pat rep fuel rest

/-- Python `s.replace(pat, rep)` for the nonempty patterns this embedding
uses (all patterns are brace-delimited tokens, hence nonempty; the empty
pattern arm is never exercised). -/
def strReplace (s pat rep : List Char) : List Char :=
  if pat.isEmpty then s else strReplaceGo pat rep s.length s

/-- A recipient row as seen by the sender thread: association list from
column name to string value, in column order (pandas `row.index` order).
`None` cells render as the empty string in the source, so values are
plain strings here. -/
abbrev Row := List (String × String)

/-- The search pattern `f"{{{col.lower()}}}"` built in
`EmailSenderThread.replace_placeholders` for one column. -/
def placeholderOf (col : String) : List Char :=
  '{' :: (lowerStr col).data ++ ['}']

/-- Embeds `EmailSenderThread.replace_placeholders` (src/core/email_sender.py
lines 59-66): starting from the template, for each column in row order,
replace every occurrence of `{column_lowercased}` by the column's string
value, sequentially. -/
def replace_placeholders (text : String) (row : Row) : String :=
  ⟨row.foldl (fun acc kv => strReplace acc (placeholderOf kv.1) kv.2.data) text.data⟩

/-- pandas `row.get(key, dflt)` for a string-valued row. -/
def rowGet (row : Row) (key dflt : String) : String :=
  match row.find? (fun kv => kv.1 == key) with
  | some kv => kv.2
  | none => dflt

/-- Character class `[a-zA-Z0-9._%+-]` (regex local part). -/
def localChar (c : Char) : Bool :=
  c.isAlpha || c.isDigit || c == '.' || c == '_' || c == '%' || c == '+' || c == '-'

/-- Character class `[a-zA-Z0-9.-]` (regex domain part). -/
def domainChar (c : Char) : Bool :=
  c.isAlpha || c.isDigit || c == '.' || c == '-'

/-- Split a list at the first occurrence of `sep`: returns the part
before and the part after, or `none` if `sep` does not occur. -/
def splitFirst (sep : Char) : List Char → Option (List Char × List Char)
  | [] => none
  | c :: rest =>
    if c == sep then some ([], rest)
    else (splitFirst sep rest).map (fun p => (c :: p.1, p.2))

/-- Membership of the regex fragment `[a-zA-Z0-9.-]+\.[a-zA-Z]{2,}$` for
the part after the `@`: some split position `p ≥ 1` carries a dot, the
part before it is a nonempty run of domain characters, and the part
after it is an all-alphabetic label of length at least 2 reaching the
end of the string. -/
def domainOk (r : List Char) : Bool :=
  (List.range r.length).any (fun p =>
    decide (1 ≤ p) &&
    decide ((r.drop p).head? = some '.') &&
    (r.take p).all domainChar &&
    (r.drop (p + 1)).all Char.isAlpha &&
    decide (2 ≤ r.length - (p + 1)))

/-- Language membership for the full pattern
`^[a-zA-Z0-9._%+-]+@[a-zA-Z0-9.-]+\.[a-zA-Z]{2,}$`: since neither
character class contains `@`, a match decomposes at the first `@` into a
nonempty local run and a matching domain tail. -/
def emailRegexCore (s : List Char) : Bool :=
  match splitFirst '@' s with
  | none => false
  | some (l, r) => decide (l ≠ []) && l.all localChar && domainOk r

/-- Python `re.match(pattern, email) is not None` with the anchored
pattern above: `$` also matches just before one trailing newline, hence
the second disjunct. -/
def emailRegexMatch (s : List Char) : Bool :=
  emailRegexCore s ||
    (match s.getLast? with
     | some c => c == '\n' && emailRegexCore s.dropLast
     | none => false)

/-- Embeds `ExcelProcessor.validate_email` (src/core/excel_processor.py
lines 115-119): a bare regex test, with no further structural checks. -/
def validate_email (email : String) : Bool :=
  emailRegexMatch email.data

/-- Substring occurrence test (Python `pat in s`). -/
def containsSub (pat s : List Char) : Bool :=
  (List.range (s.length + 1)).any (fun i => pat.isPrefixOf (s.drop i))

/-- Split at the last occurrence of `sep` (Python `s.rsplit(sep, 1)` with
one occurrence guaranteed): part before the last `sep` and part after. -/
def lastSplit (sep : Char) (s : List Char) : Option (List Char × List Char) :=
  match splitFirst sep s.reverse with
  | none => none
  | some (a, b) => some (b.reverse, a.reverse)

/-- Embeds `EmailValidator.is_valid` (src/core/validators.py lines
13-37): the regex test followed by the structural checks — no `..`, no
leading or trailing dot, local part at most 64 characters and domain at
most 255 (split at the last `@`).  Empty input is falsy and rejected. -/
def is_valid (email : String) : Bool :=
  if email.data.isEmpty then false
  else if !emailRegexMatch email.data then false
  else if containsSub ['.', '.'] email.data then false
  else if email.data.head? == some '.' || email.data.getLast? == some '.' then false
  else
    match lastSplit '@' email.data with
    | some (l, d) => decide (l.length ≤ 64) && decide (d.length ≤ 255)
    | none => false

/-- A spreadsheet row as seen by `ExcelProcessor`: association list from
column name to cell, where `none` models a pandas NaN cell (an absent
column also reads as `none`). -/
abbrev XRow := List (String × Option String)

/-- Cell access `row['Email']` combined with the `pd.notna` test the
source performs before use: `none` for NaN or missing column. -/
def getCell (r : XRow) (key : String) : Option String :=
  match r.find? (fun kv => kv.1 == key) with
  | some kv => kv.2
  | none => none

/-- The filter predicate of `get_valid_recipients`:
`self.validate_email(str(x)) if pd.notna(x) else False` on the Email cell. -/
def rowEmailValid (r : XRow) : Bool :=
  match getCell r "Email" with
  | some x => validate_email x
  | none => false

/-- pandas `drop_duplicates(subset=['Email'], keep='first')`: keep each
row whose Email cell value has not been seen on an earlier kept row.
The comparison key is the raw cell value. -/
def dedupByEmail (seen : List (Option String)) : List XRow → List XRow
  | [] => []
  | r :: rest =>
    if getCell r "Email" ∈ seen then dedupByEmail seen rest
    else r :: dedupByEmail (getCell r "Email" :: seen) rest

/-- pandas `fillna('')` on one row: NaN cells become the empty string. -/
def fillna (r : XRow) : XRow :=
  r.map (fun kv => (kv.1, some (kv.2.getD "")))

/-- Embeds `ExcelProcessor.get_valid_recipients` (src/core/excel_processor.py
lines 121-138): filter rows whose Email cell passes `validate_email`,
drop duplicate raw Email values keeping the first occurrence, then fill
NaN cells with the empty string. -/
def get_valid_recipients (df : List XRow) : List XRow :=
  (dedupByEmail [] (df.filter rowEmailValid)).map fillna

/-- Modelled from the spec: the normalized address the spec says
deduplication is keyed on — "lower-cased, whitespace-stripped".  Used
only to compare the spec's claimed key with the code's raw key. -/
def specNormalizeAddr (s : String) : String :=
  lowerStr ⟨(s.data.dropWhile Char.isWhitespace).reverse.dropWhile Char.isWhitespace |>.reverse⟩

/-- Read characters up to the first closing brace: returns the token body
and the remainder after the brace, or `none` when no closing brace
exists. -/
def takeToken : List Char → Option (List Char × List Char)
  | [] => none
  | c :: rest =>
    if c == '}' then some ([], rest)
    else (takeToken rest).map (fun p => (c :: p.1, p.2))

/-- Placeholder identifier characters per the spec: letters, digits,
underscore. -/
def isIdentChar (c : Char) : Bool :=
  c.isAlpha || c.isDigit || c == '_'

/-- Modelled from the spec: one simultaneous left-to-right pass that
replaces each well-formed token `{ident}` whose identifier equals some
column's lowercased name by that column's value, and leaves every other
token verbatim — the reading of the claim in which substituted values
are not rescanned.  `fuel` bounds the scanning steps; each step consumes
at least one character, so `fuel = s.length` completes the pass. -/
def specRenderGo (row : Row) : Nat → List Char → List Char
  | 0, s => s
  | _ + 1, [] => []
  | fuel + 1, c :: rest =>
    if c == '{' then
      match takeToken rest with
      | some (ident, after) =>
        if ident.all isIdentChar then
          match row.find? (fun kv => (lowerStr kv.1).data == ident) with
          | some kv => kv.2.data ++ specRenderGo row fuel after
          | none => '{' :: (ident ++ '}' :: specRenderGo row fuel after)
        else c :: specRenderGo row fuel rest
      | none => c :: specRenderGo row fuel rest
    else c :: specRenderGo row fuel rest

/-- Modelled from the spec: simultaneous token substitution over a whole
template (comparison definition for the rendering claim). -/
def specSimultaneousRender (text : String) (row : Row) : String :=
  ⟨specRenderGo row text.data.length text.data⟩

/-- Modelled from the spec: `round(100 * (index+1) / total)` as
`floor(x + 1/2)`, the rounding of a value that is not a half-integer.
Comparison definition for the progress claim. -/
def specRoundProgress (total i : Nat) : Nat :=
  (200 * (i + 1) + total) / (2 * total)

/-- Floor of the base-2 logarithm, computed with explicit fuel (each
step halves the argument, so `fuel = n` always suffices); structural
recursion keeps it kernel-evaluable. -/
def log2fuel : Nat → Nat → Nat
  | 0, _ => 0
  | fuel + 1, n => if 2 ≤ n then log2fuel fuel (n / 2) + 1 else 0

/-- `⌊log2 n⌋` for `n ≥ 1` (and 0 at 0). -/
def natLog2 (n : Nat) : Nat := log2fuel n n

/-- Round the nonnegative rational `N / D` to the nearest integer, ties
to even — the rounding direction IEEE-754 binary64 arithmetic uses. -/
def rndHalfEven (N D : Nat) : Nat :=
  if 2 * (N % D) < D then N / D
  else if D < 2 * (N % D) then N / D + 1
  else if (N / D) % 2 = 0 then N / D else N / D + 1

/-- One binade-scaled rounding step: for a positive rational `N / D`
lying in the binade `[2^(q-k), 2^(q-k+1))` (expressed without integer
exponents as `D * 2^q ≤ N * 2^k < 2 * (D * 2^q)`), the nearest 53-bit
significand value, returned as a numerator/denominator pair
`(m * 2^q, 2^(52+k))` with `2^52 ≤ m ≤ 2^53`. -/
def floatRoundAux (N D k q : Nat) : Nat × Nat :=
  (rndHalfEven (N * 2 ^ (52 + k)) (D * 2 ^ q) * 2 ^ q, 2 ^ (52 + k))

/-- Correctly rounded IEEE binary64 value (round to nearest, ties to
even) of the positive rational `N / D`, as an exact rational pair; the
exponent range is unbounded, which coincides with binary64 whenever the
value is in the normal range — true of every value the progress
computation produces. -/
def floatRound (N D : Nat) : Nat × Nat :=
  if N = 0 then (0, 1)
  else if D = 0 then (0, 1)
  else if D ≤ N then
    floatRoundAux N D 0 (natLog2 (N / D))
  else
    floatRoundAux N D
      (if D ≤ N * 2 ^ natLog2 (D / N) then natLog2 (D / N) else natLog2 (D / N) + 1) 0

/-- Embeds the progress expression `int(((idx + 1) / total) * 100)`
(src/core/email_sender.py line 210) with its float semantics: CPython
computes the correctly rounded binary64 quotient `(idx+1)/total`, then
the correctly rounded binary64 product with 100, then truncates toward
zero.  Both roundings are modelled exactly by `floatRound`; truncation
of the positive result is floor division. -/
def pyProgress (total i : Nat) : Nat :=
  let f1 := floatRound (i + 1) total
  let f2 := floatRound (f1.1 * 100) f1.2
  f2.1 / f2.2

/-- Outcome of one `server.send_message` call, as the `except` clauses of
the send loop classify it. -/
inductive SendResult
  | ok
  | smtpError (msg : String)
  | otherError (msg : String)
deriving DecidableEq

/-- Status stored on a persisted message outcome. -/
inductive Status
  | success
  | failed
deriving DecidableEq

/-- One `db_manager.log_email` record (a MessageOutcome); the campaign id
is fixed per run and omitted. -/
structure Outcome where
  email : String
  name : String
  subject : String
  status : Status
  error : Option String
deriving DecidableEq

/-- One `log_signal` payload `{email, name, status, error}`. -/
structure LogEvent where
  email : String
  name : String
  status : String
  error : String
deriving DecidableEq

/-- Inputs of one `EmailSenderThread.run` invocation.  `connectOk` is the
outcome of `connect_smtp` (session obtained or not); `stopAt` is the
first loop index at whose stop-flag check the cooperative stop flag
reads true (`none` when stop is never invoked, or is invoked too late to
be observed); `send` gives the result of the send attempt at each loop
position. -/
structure RunInput where
  recipients : List Row
  subject : String
  body : String
  connectOk : Bool
  stopAt : Option Nat
  send : Nat → SendResult

/-- Mutable state of the send loop: the two counters, the number of loop
iterations that ran to their counter update, and the emitted traces. -/
structure RunState where
  successful : Nat
  failed : Nat
  processed : Nat
  outcomes : List Outcome
  logs : List LogEvent
  progresses : List Nat
  sendsAttempted : List (Nat × String × String)

def initState : RunState := ⟨0, 0, 0, [], [], [], []⟩

/-- Resolution of the recipient address:
`row.get('Email', row.get('email', ''))`. -/
def rowEmail (r : Row) : String :=
  rowGet r "Email" (rowGet r "email" "")

/-- Resolution of the recipient name:
`row.get('Name', row.get('name', ''))`. -/
def rowName (r : Row) : String :=
  rowGet r "Name" (rowGet r "name" "")

/-- Embeds `EmailSenderThread.handle_failed_email` (src/core/email_sender.py
lines 240-261): increment the failed counter; only when the address is
truthy (nonempty), write a Failed outcome carrying the raw subject
template and emit a log event.  An empty address skips both. -/
def handle_failed_email (subjectTemplate email name msg : String) (st : RunState) : RunState :=
  let st1 : RunState := { st with failed := st.failed + 1 }
  if email == "" then st1
  else
    { st1 with
      outcomes := st1.outcomes ++ [⟨email, name, subjectTemplate, Status.failed, some msg⟩],
      logs := st1.logs ++ [⟨email, name, "Failed", msg⟩] }

/-- One iteration of the send loop body (src/core/email_sender.py lines
157-212) for the recipient at position `i`: resolve address and name;
empty address raises `ValueError("No email address found")` handled by
`handle_failed_email`; otherwise render subject and body, attempt the
send, and record success or failure; finally count the iteration and
emit the progress value `int(((idx + 1) / total) * 100)`, evaluated in
binary64 float arithmetic as `pyProgress`. -/
def stepRow (inp : RunInput) (total i : Nat) (r : Row) (st : RunState) : RunState :=
  let email := rowEmail r
  let name := rowName r
  let st1 :=
    if email == "" then
      handle_failed_email inp.subject email name "No email address found" st
    else
      let psubj := replace_placeholders inp.subject r
      let pbody := replace_placeholders inp.body r
      let st2 : RunState := { st with sendsAttempted := st.sendsAttempted ++ [(i, psubj, pbody)] }
      match inp.send i with
      | SendResult.ok =>
        { st2 with
          successful := st2.successful + 1,
          outcomes := st2.outcomes ++ [⟨email, name, psubj, Status.success, none⟩],
          logs := st2.logs ++ [⟨email, name, "Success", ""⟩] }
      | SendResult.smtpError m =>
        handle_failed_email inp.subject email name ("SMTP Error: " ++ m) st2
      | SendResult.otherError m =>
        handle_failed_email inp.subject email name m st2
  { st1 with
    processed := st1.processed + 1,
    progresses := st1.progresses ++ [pyProgress total i] }

/-- Whether the stop flag reads true at the check for loop index `i`
(the flag is sticky: once observed it stays set). -/
def stopNow (stopAt : Option Nat) (i : Nat) : Bool :=
  match stopAt with
  | some j => decide (j ≤ i)
  | none => false

/-- The send loop of `EmailSenderThread.run` (lines 142-216): process
recipients in order, breaking out when the stop flag is observed. -/
def runLoop (inp : RunInput) (total : Nat) : Nat → List Row → RunState → RunState
  | _, [], st => st
  | i, r :: rest, st =>
    if stopNow inp.stopAt i then st
    else runLoop inp total (i + 1) rest (stepRow inp total i r st)

/-- Emitted observables of one run: the `finished` summary counters plus
the traces accumulated by the loop. -/
structure RunOutput where
  summarySuccessful : Nat
  summaryFailed : Nat
  processed : Nat
  outcomes : List Outcome
  logs : List LogEvent
  progresses : List Nat
  sendsAttempted : List (Nat × String × String)
deriving DecidableEq

/-- Embeds `EmailSenderThread.run` (src/core/email_sender.py lines
123-238): when `connect_smtp` returns no session, immediately emit the
summary `{successful: 0, failed: total}` with no loop iteration;
otherwise run the loop from fresh counters and emit its counters. -/
def run (inp : RunInput) : RunOutput :=
  let total := inp.recipients.length
  if inp.connectOk then
    let st := runLoop inp total 0 inp.recipients initState
    ⟨st.successful, st.failed, st.processed, st.outcomes, st.logs, st.progresses, st.sendsAttempted⟩
  else
    ⟨0, total, 0, [], [], [], []⟩

/-- Result of one connection attempt inside `connect_smtp`'s retry loop:
successful login, authentication error, or any other (transient)
exception. -/
inductive ConnAttempt
  | ok
  | authFail
  | transientFail
deriving DecidableEq

/-- Terminal result of `connect_smtp`. -/
inductive ConnResult
  | connected
  | authFailed
  | exhausted
deriving DecidableEq

/-- Observable trace of `connect_smtp`: its result, how many attempts
ran, and the sleeps performed between attempts (in time units). -/
structure ConnectTrace where
  result : ConnResult
  attempts : Nat
  sleeps : List Nat
deriving DecidableEq

/-- The body of `for attempt in range(max_retries)` in `connect_smtp`
(src/core/email_sender.py lines 81-121): success returns the session;
`SMTPAuthenticationError` returns `None` immediately; any other
exception sleeps `retry_delay = 5` and retries while
`attempt < max_retries - 1`, else returns `None`.  `fuel` is the number
of loop iterations remaining (`3 - attempt` at every call). -/
def connectGo (oracle : Nat → ConnAttempt) : Nat → Nat → List Nat → ConnectTrace
  | 0, attempt, sleeps => ⟨ConnResult.exhausted, attempt, sleeps⟩
  | fuel + 1, attempt, sleeps =>
    match oracle attempt with
    | ConnAttempt.ok => ⟨ConnResult.connected, attempt + 1, sleeps⟩
    | ConnAttempt.authFail => ⟨ConnResult.authFailed, attempt + 1, sleeps⟩
    | ConnAttempt.transientFail =>
      if attempt < 2 then connectGo oracle fuel (attempt + 1) (sleeps ++ [5])
      else ⟨ConnResult.exhausted, attempt + 1, sleeps⟩

/-- Embeds `EmailSenderThread.connect_smtp` with `max_retries = 3`,
`retry_delay = 5`, driven by an oracle giving each attempt's outcome. -/
def connect_smtp (oracle : Nat → ConnAttempt) : ConnectTrace :=
  connectGo oracle 3 0 []

/-! ## Helper lemmas on the string primitives -/

theorem strReplaceGo_eq_self (pat rep : List Char) :
    ∀ (fuel : Nat) (s : List Char),
      (∀ i, pat.isPrefixOf (s.drop i) = false) → strReplaceGo pat rep fuel s = s := by
  intro fuel
  induction fuel with
  | zero => intro s _; rfl
  | succ n ih =>
    intro s h
    cases s with
    | nil => rfl
    | cons c rest =>
      have h0 : pat.isPrefixOf (c :: rest) = false := by simpa using h 0
      have hrest : ∀ i, pat.isPrefixOf (rest.drop i) = false := by
        intro i
        simpa using h (i + 1)
      simp [strReplaceGo, h0, ih rest hrest]

theorem strReplace_eq_self (s pat rep : List Char)
    (h : ∀ i, pat.isPrefixOf (s.drop i) = false) : strReplace s pat rep = s := by
  unfold strReplace
  split
  · rfl
  · exact strReplaceGo_eq_self pat rep s.length s h

theorem toNat_ofNat_valid {n : Nat} (h : n.isValidChar) : (Char.ofNat n).toNat = n := by
  unfold Char.ofNat
  rw [dif_pos h]
  simp [Char.ofNatAux, Char.toNat, UInt32.toNat, BitVec.toNat_ofNatLt]

/-- `Char.toLower` never produces the upper-case letter N: uppercase
input moves into the lowercase range, other input is returned unchanged
and is not N by the branch condition. -/
theorem toLower_ne_upperN (c : Char) : c.toLower ≠ 'N' := by
  intro h
  rw [show c.toLower
      = (if c.toNat ≥ 65 ∧ c.toNat ≤ 90 then Char.ofNat (c.toNat + 32) else c) from rfl] at h
  by_cases hcond : c.toNat ≥ 65 ∧ c.toNat ≤ 90
  · rw [if_pos hcond] at h
    have hv : (c.toNat + 32).isValidChar := Or.inl (by omega)
    have hN : ('N').toNat = 78 := rfl
    have h2 := congrArg Char.toNat h
    rw [toNat_ofNat_valid hv, hN] at h2
    omega
  · rw [if_neg hcond] at h
    apply hcond
    rw [h]
    exact ⟨by decide, by decide⟩

/-- The pattern `{col_lowercased}` never occurs in the six-character
template `{Name}`: a match would have to start at the opening brace, and
the pattern's second character is either a lowered character (never the
upper-case N) or the closing brace. -/
theorem placeholder_not_in_name (col : String) (i : Nat) :
    (placeholderOf col).isPrefixOf ((['{', 'N', 'a', 'm', 'e', '}'] : List Char).drop i) = false := by
  have hdata : (placeholderOf col) = '{' :: ((col.data.map Char.toLower) ++ ['}']) := rfl
  match i with
  | 0 =>
    rw [hdata]
    cases hcd : col.data with
    | nil => simp [List.isPrefixOf]
    | cons d ds =>
      have hne : (Char.toLower d == 'N') = false :=
        beq_eq_false_iff_ne.mpr (toLower_ne_upperN d)
      simp [List.isPrefixOf, hne]
  | 1 => rw [hdata]; simp [List.isPrefixOf]
  | 2 => rw [hdata]; simp [List.isPrefixOf]
  | 3 => rw [hdata]; simp [List.isPrefixOf]
  | 4 => rw [hdata]; simp [List.isPrefixOf]
  | 5 => rw [hdata]; simp [List.isPrefixOf]
  | (j + 6) =>
    rw [hdata]
    have hd : (['{', 'N', 'a', 'm', 'e', '}'] : List Char).drop (j + 6) = [] := by
      show List.drop j ([] : List Char) = []
      exact List.drop_nil
    rw [hd]
    simp [List.isPrefixOf]

theorem strReplace_name_fixed (col : String) (v : List Char) :
    strReplace "{Name}".data (placeholderOf col) v = "{Name}".data := by
  apply strReplace_eq_self
  intro i
  exact placeholder_not_in_name col i

/-! ## C10 -/

/-- C10: the worker's placeholder substitution only ever searches for
tokens spelled `{column_name_lowercased}`; a template token containing
an upper-case letter, such as `{Name}`, is never replaced, whatever
columns the row has. -/
theorem C10_lowercase_tokens_only (row : Row) :
    replace_placeholders "{Name}" row = "{Name}" := by
  unfold replace_placeholders
  have h : ∀ (rs : Row),
      rs.foldl (fun acc kv => strReplace acc (placeholderOf kv.1) kv.2.data) "{Name}".data
        = "{Name}".data := by
    intro rs
    induction rs with
    | nil => rfl
    | cons kv rest ih =>
      rw [List.foldl_cons]
      rw [show strReplace "{Name}".data (placeholderOf kv.1) kv.2.data = "{Name}".data from
        strReplace_name_fixed kv.1 kv.2.data]
      exact ih
  rw [h row]

/-! ## C3 -/

/-- C3 counterexample: the validation used to accept recipient rows
(`ExcelProcessor.validate_email`, a bare regex test) accepts addresses
with consecutive dots, a leading dot, and a 65-character local part —
all of which the claim says are rejected as invalid. -/
theorem C3_claim_counterexample :
    validate_email "user..name@example.com" = true ∧
    validate_email ".user@example.com" = true ∧
    validate_email ⟨List.replicate 65 'a' ++ "@example.com".data⟩ = true := by decide

set_option maxRecDepth 100000 in
/-- C3 amended: the row-acceptance validator checks only the regex
grammar (it accepts `user@example.com`, rejects `user@domain`, but
accepts consecutive dots, a leading dot, over-long local parts and
over-long domains); the full stated grammar is implemented by the
separate `EmailValidator.is_valid`, which is not used for row
acceptance. -/
theorem C3_regex_only_validator :
    validate_email "user@example.com" = true ∧
    validate_email "user@domain" = false ∧
    validate_email "user..name@example.com" = true ∧
    validate_email ".user@example.com" = true ∧
    validate_email ⟨List.replicate 65 'a' ++ "@example.com".data⟩ = true ∧
    validate_email ⟨"u@".data ++ List.replicate 252 'a' ++ ".com".data⟩ = true ∧
    is_valid "user@example.com" = true ∧
    is_valid "user@domain" = false ∧
    is_valid "user..name@example.com" = false ∧
    is_valid ".user@example.com" = false ∧
    is_valid ⟨List.replicate 65 'a' ++ "@example.com".data⟩ = false ∧
    is_valid ⟨"u@".data ++ List.replicate 252 'a' ++ ".com".data⟩ = false := by decide

/-! ## C4 -/

theorem dedupByEmail_subset :
    ∀ (l : List XRow) (seen : List (Option String)) (r : XRow),
      r ∈ dedupByEmail seen l → r ∈ l := by
  intro l
  induction l with
  | nil => intro seen r h; simp [dedupByEmail] at h
  | cons a rest ih =>
    intro seen r h
    by_cases hc : getCell a "Email" ∈ seen
    · simp only [dedupByEmail, if_pos hc] at h
      exact List.mem_cons_of_mem a (ih seen r h)
    · simp only [dedupByEmail, if_neg hc, List.mem_cons] at h
      rcases h with h | h
      · exact h ▸ List.mem_cons_self a rest
      · exact List.mem_cons_of_mem a (ih _ r h)

theorem dedupByEmail_notin_seen :
    ∀ (l : List XRow) (seen : List (Option String)) (r : XRow),
      r ∈ dedupByEmail seen l → getCell r "Email" ∉ seen := by
  intro l
  induction l with
  | nil => intro seen r h; simp [dedupByEmail] at h
  | cons a rest ih =>
    intro seen r h
    by_cases hc : getCell a "Email" ∈ seen
    · simp only [dedupByEmail, if_pos hc] at h
      exact ih seen r h
    · simp only [dedupByEmail, if_neg hc, List.mem_cons] at h
      rcases h with h | h
      · exact h ▸ hc
      · have := ih _ r h
        intro hmem
        exact this (List.mem_cons_of_mem _ hmem)

theorem dedupByEmail_pairwise :
    ∀ (l : List XRow) (seen : List (Option String)),
      (dedupByEmail seen l).Pairwise (fun a b => getCell a "Email" ≠ getCell b "Email") := by
  intro l
  induction l with
  | nil => intro seen; simp [dedupByEmail]
  | cons a rest ih =>
    intro seen
    by_cases hc : getCell a "Email" ∈ seen
    · simp only [dedupByEmail, if_pos hc]
      exact ih seen
    · simp only [dedupByEmail, if_neg hc]
      refine List.Pairwise.cons ?_ (ih _)
      intro b hb
      have := dedupByEmail_notin_seen rest _ b hb
      intro he
      exact this (he ▸ List.mem_cons_self _ _)

theorem dedupByEmail_complete :
    ∀ (l : List XRow) (seen : List (Option String)) (r : XRow),
      r ∈ l → getCell r "Email" ∉ seen →
      ∃ s ∈ dedupByEmail seen l, getCell s "Email" = getCell r "Email" := by
  intro l
  induction l with
  | nil => intro seen r h; exact absurd h (List.not_mem_nil r)
  | cons a rest ih =>
    intro seen r hmem hseen
    rcases List.mem_cons.mp hmem with heq | hrest
    · subst heq
      by_cases hc : getCell r "Email" ∈ seen
      · exact absurd hc hseen
      · exact ⟨r, by simp [dedupByEmail, if_neg hc], rfl⟩
    · by_cases hc : getCell a "Email" ∈ seen
      · simp only [dedupByEmail, if_pos hc]
        exact ih seen r hrest hseen
      · by_cases hk : getCell r "Email" = getCell a "Email"
        · exact ⟨a, by simp [dedupByEmail, if_neg hc], hk.symm⟩
        · have hseen2 : getCell r "Email" ∉ getCell a "Email" :: seen := by
            intro h
            rcases List.mem_cons.mp h with h | h
            · exact hk h
            · exact hseen h
          obtain ⟨s, hs, hkey⟩ := ih _ r hrest hseen2
          exact ⟨s, by simp only [dedupByEmail, if_neg hc]; exact List.mem_cons_of_mem a hs, hkey⟩

theorem find?_fillna (r : XRow) (key : String) :
    (fillna r).find? (fun kv => kv.1 == key)
      = (r.find? (fun kv => kv.1 == key)).map (fun kv => (kv.1, some (kv.2.getD ""))) := by
  unfold fillna
  rw [List.find?_map]
  rfl

theorem getCell_fillna_of_some {r : XRow} {k : String} {v : String}
    (h : getCell r k = some v) : getCell (fillna r) k = some v := by
  unfold getCell at h ⊢
  rw [find?_fillna]
  cases hf : r.find? (fun kv => kv.1 == k) with
  | none =>
    rw [hf] at h
    simp at h
  | some kv =>
    rw [hf] at h
    simp at h
    simp [h]

theorem rowEmailValid_getCell {r : XRow} (h : rowEmailValid r = true) :
    ∃ e, getCell r "Email" = some e ∧ validate_email e = true := by
  unfold rowEmailValid at h
  cases hc : getCell r "Email" with
  | none => rw [hc] at h; exact absurd h (by simp)
  | some e => rw [hc] at h; exact ⟨e, rfl, h⟩

/-- C4 amended: the accepted output of `get_valid_recipients` is the
valid rows deduplicated by the raw (exactly-as-written) address value,
keeping the first occurrence; no normalization is applied to the
deduplication key, so rows differing only in letter case stay distinct. -/
theorem C4_dedup_raw_address (df : List XRow) :
    (∀ r ∈ get_valid_recipients df,
        ∃ e, getCell r "Email" = some e ∧ validate_email e = true) ∧
    (get_valid_recipients df).Pairwise (fun a b => getCell a "Email" ≠ getCell b "Email") ∧
    (∀ r ∈ df, rowEmailValid r = true →
        ∃ s ∈ get_valid_recipients df, getCell s "Email" = getCell r "Email") := by
  refine ⟨?_, ?_, ?_⟩
  · intro r hr
    unfold get_valid_recipients at hr
    rcases List.mem_map.mp hr with ⟨s, hs, hfill⟩
    have hsf : s ∈ df.filter rowEmailValid := dedupByEmail_subset _ _ s hs
    have hval : rowEmailValid s = true := (List.mem_filter.mp hsf).2
    obtain ⟨e, he, hv⟩ := rowEmailValid_getCell hval
    exact ⟨e, hfill ▸ getCell_fillna_of_some he, hv⟩
  · unfold get_valid_recipients
    rw [List.pairwise_map]
    refine List.Pairwise.imp_of_mem ?_ (dedupByEmail_pairwise (df.filter rowEmailValid) [])
    intro a b ha hb hne
    have hva : rowEmailValid a = true :=
      (List.mem_filter.mp (dedupByEmail_subset _ _ a ha)).2
    have hvb : rowEmailValid b = true :=
      (List.mem_filter.mp (dedupByEmail_subset _ _ b hb)).2
    obtain ⟨ea, hea, _⟩ := rowEmailValid_getCell hva
    obtain ⟨eb, heb, _⟩ := rowEmailValid_getCell hvb
    rw [getCell_fillna_of_some hea, getCell_fillna_of_some heb]
    rw [hea, heb] at hne
    exact hne
  · intro r hr hval
    have hmem : r ∈ df.filter rowEmailValid := List.mem_filter.mpr ⟨hr, hval⟩
    obtain ⟨s, hs, hkey⟩ :=
      dedupByEmail_complete (df.filter rowEmailValid) [] r hmem (List.not_mem_nil _)
    have hvs : rowEmailValid s = true :=
      (List.mem_filter.mp (dedupByEmail_subset _ _ s hs)).2
    obtain ⟨es, hes, _⟩ := rowEmailValid_getCell hvs
    refine ⟨fillna s, List.mem_map_of_mem fillna hs, ?_⟩
    rw [getCell_fillna_of_some hes, ← hes, hkey]

/-- Witness for C4: a concrete table with a duplicate raw address and an
invalid row, instantiating each part of the amended theorem. -/
theorem C4_dedup_raw_address_witness :
    (∃ e, getCell (get_valid_recipients
        [[("Email", some "u@x.com")], [("Email", some "u@x.com")], [("Email", some "bad")]]
        |>.headI) "Email" = some e ∧ validate_email e = true) ∧
    (get_valid_recipients
        [[("Email", some "u@x.com")], [("Email", some "u@x.com")], [("Email", some "bad")]]).Pairwise
      (fun a b => getCell a "Email" ≠ getCell b "Email") ∧
    (∃ s ∈ get_valid_recipients
        [[("Email", some "u@x.com")], [("Email", some "u@x.com")], [("Email", some "bad")]],
      getCell s "Email" = getCell [("Email", some "u@x.com")] "Email") := by
  have h := C4_dedup_raw_address
    [[("Email", some "u@x.com")], [("Email", some "u@x.com")], [("Email", some "bad")]]
  refine ⟨?_, h.2.1, h.2.2 [("Email", some "u@x.com")] (by decide) (by decide)⟩
  exact h.1 _ (by decide)

/-- C4 counterexample: two valid rows whose addresses differ only in
letter case (equal normalized addresses) both survive
`get_valid_recipients`; the claim requires exactly one accepted row. -/
theorem C4_claim_counterexample :
    specNormalizeAddr "A@x.com" = specNormalizeAddr "a@x.com" ∧
    validate_email "A@x.com" = true ∧
    validate_email "a@x.com" = true ∧
    (get_valid_recipients [[("Email", some "A@x.com")], [("Email", some "a@x.com")]]).length = 2 := by
  decide

/-! ## C5 -/

/-- C5 counterexample: the worker's renderer substitutes column by
column, so with row `A = "{b}"`, `B = "x"` the template `{a}` renders to
`x`, while the claim's simultaneous replacement of each template token
by its column's value yields `{b}`. -/
theorem C5_claim_counterexample :
    replace_placeholders "{a}" [("A", "{b}"), ("B", "x")] = "x" ∧
    specSimultaneousRender "{a}" [("A", "{b}"), ("B", "x")] = "{b}" ∧
    ("x" : String) ≠ "{b}" := by decide

/-- C5 amended: rendering applies sequential per-column replacement in
row-column order — a substituted value containing a later column's token
is substituted again — and on templates whose values introduce no
further tokens it agrees with the simultaneous reading; the stated
examples render as given and a token with no matching column stays
verbatim. -/
theorem C5_sequential_rendering :
    replace_placeholders "Hello {name}, you are at {company}" [("Name", "Ann"), ("Company", "Acme")]
      = "Hello Ann, you are at Acme" ∧
    replace_placeholders "Hello {name}, call {phone}" [("Name", "Ann"), ("Company", "Acme")]
      = "Hello Ann, call {phone}" ∧
    specSimultaneousRender "Hello {name}, you are at {company}" [("Name", "Ann"), ("Company", "Acme")]
      = "Hello Ann, you are at Acme" ∧
    replace_placeholders "{a}" [("A", "{b}"), ("B", "x")] = "x" := by decide

/-! ## Send-loop lemmas -/

theorem stepRow_eq_empty (inp : RunInput) (total i : Nat) (r : Row) (st : RunState)
    (he : (rowEmail r == "") = true) :
    stepRow inp total i r st
      = ⟨st.successful, st.failed + 1, st.processed + 1, st.outcomes, st.logs,
          st.progresses ++ [pyProgress total i], st.sendsAttempted⟩ := by
  unfold stepRow handle_failed_email
  simp [he]

theorem stepRow_eq_ok (inp : RunInput) (total i : Nat) (r : Row) (st : RunState)
    (he : (rowEmail r == "") = false) (hs : inp.send i = SendResult.ok) :
    stepRow inp total i r st
      = ⟨st.successful + 1, st.failed, st.processed + 1,
          st.outcomes
            ++ [⟨rowEmail r, rowName r, replace_placeholders inp.subject r, Status.success, none⟩],
          st.logs ++ [⟨rowEmail r, rowName r, "Success", ""⟩],
          st.progresses ++ [pyProgress total i],
          st.sendsAttempted
            ++ [(i, replace_placeholders inp.subject r, replace_placeholders inp.body r)]⟩ := by
  unfold stepRow handle_failed_email
  simp [he, hs]

theorem stepRow_eq_smtpError (inp : RunInput) (total i : Nat) (r : Row) (st : RunState)
    (m : String) (he : (rowEmail r == "") = false) (hs : inp.send i = SendResult.smtpError m) :
    stepRow inp total i r st
      = ⟨st.successful, st.failed + 1, st.processed + 1,
          st.outcomes
            ++ [⟨rowEmail r, rowName r, inp.subject, Status.failed, some ("SMTP Error: " ++ m)⟩],
          st.logs ++ [⟨rowEmail r, rowName r, "Failed", "SMTP Error: " ++ m⟩],
          st.progresses ++ [pyProgress total i],
          st.sendsAttempted
            ++ [(i, replace_placeholders inp.subject r, replace_placeholders inp.body r)]⟩ := by
  unfold stepRow handle_failed_email
  simp [he, hs]

theorem stepRow_eq_otherError (inp : RunInput) (total i : Nat) (r : Row) (st : RunState)
    (m : String) (he : (rowEmail r == "") = false) (hs : inp.send i = SendResult.otherError m) :
    stepRow inp total i r st
      = ⟨st.successful, st.failed + 1, st.processed + 1,
          st.outcomes ++ [⟨rowEmail r, rowName r, inp.subject, Status.failed, some m⟩],
          st.logs ++ [⟨rowEmail r, rowName r, "Failed", m⟩],
          st.progresses ++ [pyProgress total i],
          st.sendsAttempted
            ++ [(i, replace_placeholders inp.subject r, replace_placeholders inp.body r)]⟩ := by
  unfold stepRow handle_failed_email
  simp [he, hs]

theorem stepRow_counts (inp : RunInput) (total i : Nat) (r : Row) (st : RunState) :
    (stepRow inp total i r st).successful + (stepRow inp total i r st).failed
        = st.successful + st.failed + 1 ∧
    (stepRow inp total i r st).processed = st.processed + 1 ∧
    (stepRow inp total i r st).outcomes.length ≤ st.outcomes.length + 1 ∧
    (stepRow inp total i r st).progresses = st.progresses ++ [pyProgress total i] := by
  cases he : rowEmail r == "" with
  | true =>
    rw [stepRow_eq_empty inp total i r st he]
    refine ⟨by dsimp only; omega, rfl, by simp, rfl⟩
  | false =>
    cases hs : inp.send i with
    | ok =>
      rw [stepRow_eq_ok inp total i r st he hs]
      refine ⟨by dsimp only; omega, rfl, by simp, rfl⟩
    | smtpError m =>
      rw [stepRow_eq_smtpError inp total i r st m he hs]
      refine ⟨by dsimp only; omega, rfl, by simp, rfl⟩
    | otherError m =>
      rw [stepRow_eq_otherError inp total i r st m he hs]
      refine ⟨by dsimp only; omega, rfl, by simp, rfl⟩

theorem stepRow_outcomes (inp : RunInput) (total i : Nat) (r : Row) (st : RunState) :
    (stepRow inp total i r st).outcomes = st.outcomes ∨
    (stepRow inp total i r st).outcomes
      = st.outcomes
          ++ [⟨rowEmail r, rowName r, replace_placeholders inp.subject r, Status.success, none⟩] ∨
    ∃ m, (stepRow inp total i r st).outcomes
      = st.outcomes ++ [⟨rowEmail r, rowName r, inp.subject, Status.failed, some m⟩] := by
  cases he : rowEmail r == "" with
  | true =>
    rw [stepRow_eq_empty inp total i r st he]
    exact Or.inl rfl
  | false =>
    cases hs : inp.send i with
    | ok =>
      rw [stepRow_eq_ok inp total i r st he hs]
      exact Or.inr (Or.inl rfl)
    | smtpError m =>
      rw [stepRow_eq_smtpError inp total i r st m he hs]
      exact Or.inr (Or.inr ⟨"SMTP Error: " ++ m, rfl⟩)
    | otherError m =>
      rw [stepRow_eq_otherError inp total i r st m he hs]
      exact Or.inr (Or.inr ⟨m, rfl⟩)

theorem runLoop_conservation (inp : RunInput) (total : Nat) :
    ∀ (rows : List Row) (i : Nat) (st : RunState),
      (runLoop inp total i rows st).successful + (runLoop inp total i rows st).failed
          + st.processed
        = st.successful + st.failed + (runLoop inp total i rows st).processed ∧
      st.processed ≤ (runLoop inp total i rows st).processed ∧
      (runLoop inp total i rows st).processed ≤ st.processed + rows.length ∧
      ((runLoop inp total i rows st).processed < st.processed + rows.length →
        inp.stopAt ≠ none) ∧
      (runLoop inp total i rows st).outcomes.length + st.processed
        ≤ st.outcomes.length + (runLoop inp total i rows st).processed := by
  intro rows
  induction rows with
  | nil =>
    intro i st
    refine ⟨by simp [runLoop], by simp [runLoop], by simp [runLoop], ?_, by simp [runLoop]⟩
    intro h
    exact absurd h (by simp [runLoop])
  | cons r rest ih =>
    intro i st
    by_cases hstop : stopNow inp.stopAt i = true
    · rw [runLoop, if_pos hstop]
      refine ⟨by omega, Nat.le_refl _, by simp, ?_, by omega⟩
      intro _
      cases hso : inp.stopAt with
      | none => rw [hso] at hstop; simp [stopNow] at hstop
      | some j => simp
    · rw [runLoop, if_neg hstop]
      obtain ⟨g1, g2, g3, g4, g5⟩ := ih (i + 1) (stepRow inp total i r st)
      obtain ⟨c1, c2, c3, c4⟩ := stepRow_counts inp total i r st
      refine ⟨by omega, by omega, by simp; omega, ?_, by omega⟩
      intro hlt
      apply g4
      simp only [List.length_cons] at hlt
      omega

/-- C2: with a successfully opened session, the final summary counters
satisfy `successful + failed + unprocessed = total`; `unprocessed` is
nonzero only if Stop was invoked, and skipped recipients contribute no
outcome record (outcome records never exceed processed recipients). -/
theorem C2_counter_conservation (inp : RunInput) (hc : inp.connectOk = true) :
    (run inp).summarySuccessful + (run inp).summaryFailed = (run inp).processed ∧
    (run inp).processed ≤ inp.recipients.length ∧
    (inp.recipients.length - (run inp).processed ≠ 0 → inp.stopAt ≠ none) ∧
    (run inp).summarySuccessful + (run inp).summaryFailed
        + (inp.recipients.length - (run inp).processed) = inp.recipients.length ∧
    (run inp).outcomes.length ≤ (run inp).processed := by
  obtain ⟨g1, g2, g3, g4, g5⟩ :=
    runLoop_conservation inp inp.recipients.length inp.recipients 0 initState
  have hrw : run inp
      = ⟨(runLoop inp inp.recipients.length 0 inp.recipients initState).successful,
          (runLoop inp inp.recipients.length 0 inp.recipients initState).failed,
          (runLoop inp inp.recipients.length 0 inp.recipients initState).processed,
          (runLoop inp inp.recipients.length 0 inp.recipients initState).outcomes,
          (runLoop inp inp.recipients.length 0 inp.recipients initState).logs,
          (runLoop inp inp.recipients.length 0 inp.recipients initState).progresses,
          (runLoop inp inp.recipients.length 0 inp.recipients initState).sendsAttempted⟩ := by
    unfold run
    rw [if_pos (by rw [hc])]
  simp only [show initState.successful = 0 from rfl, show initState.failed = 0 from rfl,
    show initState.processed = 0 from rfl,
    show initState.outcomes = ([] : List Outcome) from rfl,
    List.length_nil, Nat.zero_add, Nat.add_zero] at g1 g2 g3 g4 g5
  rw [hrw]
  dsimp only
  refine ⟨by omega, by omega, ?_, by omega, by omega⟩
  intro hne
  apply g4
  omega

/-- Witness for C2: a two-recipient run stopped before the second
recipient — one processed, one unprocessed, stop invoked. -/
theorem C2_counter_conservation_witness :
    (run ⟨[[("Email", "a@x.com")], [("Email", "b@x.com")]], "s", "b", true, some 1,
        fun _ => SendResult.ok⟩).summarySuccessful
      + (run ⟨[[("Email", "a@x.com")], [("Email", "b@x.com")]], "s", "b", true, some 1,
        fun _ => SendResult.ok⟩).summaryFailed
      + (2 - (run ⟨[[("Email", "a@x.com")], [("Email", "b@x.com")]], "s", "b", true, some 1,
        fun _ => SendResult.ok⟩).processed) = 2 ∧
    (some 1 : Option Nat) ≠ none := by
  have h := C2_counter_conservation
    ⟨[[("Email", "a@x.com")], [("Email", "b@x.com")]], "s", "b", true, some 1,
      fun _ => SendResult.ok⟩ rfl
  exact ⟨h.2.2.2.1, h.2.2.1 (by decide)⟩

/-! ## C1 -/

/-- C1: evaluating the loop at a recipient whose address is empty — the
iteration runs to its counter update (`failed` becomes 1, progress is
emitted), yet no outcome record is written and no per-recipient log
event is emitted, because `handle_failed_email` guards persistence
behind `if recipient_email`. -/
theorem C1_empty_address_failure_dropped :
    run ⟨[[("Email", ""), ("Name", "Bob")]], "Subj", "Body", true, none, fun _ => SendResult.ok⟩
      = ⟨0, 1, 1, [], [], [100], []⟩ := by decide

/-! ## C7 -/

/-- C7: when opening the delivery session fails, the worker reports the
summary `successful = 0`, `failed = total` immediately: no send attempt,
no outcome record, no log or progress event. -/
theorem C7_connect_failure_summary (inp : RunInput) (hc : inp.connectOk = false) :
    run inp = ⟨0, inp.recipients.length, 0, [], [], [], []⟩ := by
  unfold run
  rw [if_neg (by rw [hc]; exact Bool.false_ne_true)]

/-- Witness for C7: a concrete two-recipient run whose connection fails. -/
theorem C7_connect_failure_summary_witness :
    run ⟨[[("Email", "a@x.com")], [("Email", "b@x.com")]], "s", "b", false, none,
        fun _ => SendResult.ok⟩
      = ⟨0, 2, 0, [], [], [], []⟩ :=
  C7_connect_failure_summary
    ⟨[[("Email", "a@x.com")], [("Email", "b@x.com")]], "s", "b", false, none,
      fun _ => SendResult.ok⟩ rfl

/-! ## C9 -/

theorem runLoop_outcome_subjects (inp : RunInput) (total : Nat) :
    ∀ (rows : List Row) (i : Nat) (st : RunState),
      (∀ r ∈ rows, r ∈ inp.recipients) →
      (∀ o ∈ st.outcomes,
        (o.status = Status.failed → o.subject = inp.subject) ∧
        (o.status = Status.success →
          ∃ r ∈ inp.recipients, o.subject = replace_placeholders inp.subject r)) →
      ∀ o ∈ (runLoop inp total i rows st).outcomes,
        (o.status = Status.failed → o.subject = inp.subject) ∧
        (o.status = Status.success →
          ∃ r ∈ inp.recipients, o.subject = replace_placeholders inp.subject r) := by
  intro rows
  induction rows with
  | nil =>
    intro i st _ hst
    simpa [runLoop] using hst
  | cons r rest ih =>
    intro i st hrows hst
    by_cases hstop : stopNow inp.stopAt i = true
    · rw [runLoop, if_pos hstop]
      exact hst
    · rw [runLoop, if_neg hstop]
      apply ih (i + 1) (stepRow inp total i r st)
      · intro q hq
        exact hrows q (List.mem_cons_of_mem r hq)
      · intro o ho
        rcases stepRow_outcomes inp total i r st with hout | hout | ⟨m, hout⟩
        · exact hst o (hout ▸ ho)
        · rw [hout] at ho
          rcases List.mem_append.mp ho with hmem | hmem
          · exact hst o hmem
          · rcases List.mem_singleton.mp hmem with rfl
            constructor
            · intro hco
              exact absurd hco (by simp)
            · intro _
              exact ⟨r, hrows r (List.mem_cons_self r rest), rfl⟩
        · rw [hout] at ho
          rcases List.mem_append.mp ho with hmem | hmem
          · exact hst o hmem
          · rcases List.mem_singleton.mp hmem with rfl
            constructor
            · intro _
              rfl
            · intro hco
              exact absurd hco (by simp)

/-- C9 amended: every successful outcome carries the rendered subject of
its recipient row; every failed outcome carries the raw (unrendered)
subject template. -/
theorem C9_outcome_subject (inp : RunInput) :
    ∀ o ∈ (run inp).outcomes,
      (o.status = Status.failed → o.subject = inp.subject) ∧
      (o.status = Status.success →
        ∃ r ∈ inp.recipients, o.subject = replace_placeholders inp.subject r) := by
  cases hc : inp.connectOk with
  | false =>
    unfold run
    rw [if_neg (by rw [hc]; exact Bool.false_ne_true)]
    intro o ho
    exact absurd ho (by simp)
  | true =>
    have hrw : (run inp).outcomes
        = (runLoop inp inp.recipients.length 0 inp.recipients initState).outcomes := by
      unfold run
      rw [if_pos (by rw [hc])]
    rw [hrw]
    apply runLoop_outcome_subjects inp inp.recipients.length inp.recipients 0 initState
    · intro r hr
      exact hr
    · intro o ho
      exact absurd ho (by simp [initState])

/-- Witness for C9: a failed outcome of a concrete run carries the raw
subject template. -/
theorem C9_outcome_subject_witness :
    (⟨"bob@x.com", "Ann", "Hi {name}", Status.failed, some "SMTP Error: boom"⟩ : Outcome).subject
      = "Hi {name}" :=
  (C9_outcome_subject
      ⟨[[("Email", "bob@x.com"), ("Name", "Ann")]], "Hi {name}", "", true, none,
        fun _ => SendResult.smtpError "boom"⟩
      ⟨"bob@x.com", "Ann", "Hi {name}", Status.failed, some "SMTP Error: boom"⟩
      (by decide)).1 rfl

/-- C9 counterexample: a failed outcome carries the raw subject template
`Hi {name}`, not the rendered subject `Hi Ann` the claim requires. -/
theorem C9_claim_counterexample :
    (run ⟨[[("Email", "bob@x.com"), ("Name", "Ann")]], "Hi {name}", "", true, none,
        fun _ => SendResult.smtpError "boom"⟩).outcomes
      = [⟨"bob@x.com", "Ann", "Hi {name}", Status.failed, some "SMTP Error: boom"⟩] ∧
    replace_placeholders "Hi {name}" [("Email", "bob@x.com"), ("Name", "Ann")] = "Hi Ann" ∧
    ("Hi {name}" : String) ≠ "Hi Ann" := by decide

/-! ## C6 -/

theorem log2fuel_spec :
    ∀ (fuel n : Nat), 1 ≤ n → n ≤ fuel →
      2 ^ log2fuel fuel n ≤ n ∧ n < 2 ^ (log2fuel fuel n + 1) := by
  intro fuel
  induction fuel with
  | zero => intro n h1 h2; omega
  | succ f ih =>
    intro n h1 h2
    by_cases h : 2 ≤ n
    · have hn2 : 1 ≤ n / 2 := by omega
      have hle : n / 2 ≤ f := by omega
      obtain ⟨ha, hb⟩ := ih (n / 2) hn2 hle
      rw [log2fuel, if_pos h]
      constructor
      · have e : (2 : Nat) ^ (log2fuel f (n / 2) + 1) = 2 * 2 ^ log2fuel f (n / 2) := by ring
        rw [e]
        omega
      · have e : (2 : Nat) ^ (log2fuel f (n / 2) + 1 + 1)
            = 2 * 2 ^ (log2fuel f (n / 2) + 1) := by ring
        rw [e]
        omega
    · rw [log2fuel, if_neg h]
      have e : (2 : Nat) ^ (0 + 1) = 2 := by norm_num
      rw [pow_zero, e]
      omega

theorem natLog2_spec (n : Nat) (h : 1 ≤ n) :
    2 ^ natLog2 n ≤ n ∧ n < 2 ^ (natLog2 n + 1) :=
  log2fuel_spec n n h (Nat.le_refl n)

theorem rndHalfEven_ge_div (N D : Nat) : N / D ≤ rndHalfEven N D := by
  unfold rndHalfEven
  split_ifs <;> omega

theorem rndHalfEven_le_div_succ (N D : Nat) : rndHalfEven N D ≤ N / D + 1 := by
  unfold rndHalfEven
  split_ifs <;> omega

/-- Rounding an exact multiple leaves it unchanged. -/
theorem rndHalfEven_exact {D : Nat} (m : Nat) (hD : 0 < D) :
    rndHalfEven (D * m) D = m := by
  unfold rndHalfEven
  rw [Nat.mul_div_cancel_left m hD, Nat.mul_mod_right D m]
  rw [if_pos (by omega)]

/-- Floor division is monotone on rational values given in
numerator/denominator form. -/
theorem div_le_div_of_cross {a b c d : Nat} (hb : 0 < b) (hd : 0 < d)
    (h : a * d ≤ c * b) : a / b ≤ c / d := by
  rw [Nat.le_div_iff_mul_le hd]
  have h1 : a / b * b ≤ a := Nat.div_mul_le_self a b
  have h4 : a / b * d * b ≤ c * b := by
    calc a / b * d * b = a / b * b * d := by ring
      _ ≤ a * d := Nat.mul_le_mul_right d h1
      _ ≤ c * b := h
  exact Nat.le_of_mul_le_mul_right h4 hb

/-- Round-to-nearest-even is monotone on rational values: it depends
only on the floor, the position of the fractional part relative to one
half, and the floor's parity, each of which respects the ordering. -/
theorem rndHalfEven_mono {a b c d : Nat} (hb : 0 < b) (hd : 0 < d)
    (h : a * d ≤ c * b) : rndHalfEven a b ≤ rndHalfEven c d := by
  have hq : a / b ≤ c / d := div_le_div_of_cross hb hd h
  by_cases hqlt : a / b < c / d
  · have h1 := rndHalfEven_le_div_succ a b
    have h2 := rndHalfEven_ge_div c d
    omega
  · have hqe : a / b = c / d := by omega
    have hfrac : a % b * d ≤ c % d * b := by
      have ha := Nat.div_add_mod a b
      have hc := Nat.div_add_mod c d
      have e1 : a * d = b * (a / b) * d + a % b * d := by
        calc a * d = (b * (a / b) + a % b) * d := by rw [ha]
          _ = b * (a / b) * d + a % b * d := by ring
      have e2 : c * b = b * (a / b) * d + c % d * b := by
        calc c * b = (d * (c / d) + c % d) * b := by rw [hc]
          _ = d * (c / d) * b + c % d * b := by ring
          _ = b * (a / b) * d + c % d * b := by rw [hqe]; ring
      rw [e1, e2] at h
      omega
    by_cases c1 : 2 * (a % b) < b
    · have e : rndHalfEven a b = a / b := by unfold rndHalfEven; rw [if_pos c1]
      rw [e, hqe]
      exact rndHalfEven_ge_div c d
    · by_cases c2 : b < 2 * (a % b)
      · have e : rndHalfEven a b = a / b + 1 := by
          unfold rndHalfEven; rw [if_neg c1, if_pos c2]
        have p1 : b * d < b * (2 * (c % d)) := by
          calc b * d < 2 * (a % b) * d := mul_lt_mul_of_pos_right c2 hd
            _ = 2 * (a % b * d) := by ring
            _ ≤ 2 * (c % d * b) := by omega
            _ = b * (2 * (c % d)) := by ring
        have hlt : d < 2 * (c % d) := Nat.lt_of_mul_lt_mul_left p1
        have e2 : rndHalfEven c d = c / d + 1 := by
          unfold rndHalfEven; rw [if_neg (by omega), if_pos hlt]
        rw [e, e2, hqe]
      · have ctie : 2 * (a % b) = b := by omega
        by_cases cpar : (a / b) % 2 = 0
        · have e : rndHalfEven a b = a / b := by
            unfold rndHalfEven; rw [if_neg c1, if_neg c2, if_pos cpar]
          rw [e, hqe]
          exact rndHalfEven_ge_div c d
        · have e : rndHalfEven a b = a / b + 1 := by
            unfold rndHalfEven; rw [if_neg c1, if_neg c2, if_neg cpar]
          have hr : 0 < a % b := by omega
          have p : a % b * d ≤ a % b * (2 * (c % d)) := by
            calc a % b * d ≤ c % d * b := hfrac
              _ = c % d * (2 * (a % b)) := by rw [ctie]
              _ = a % b * (2 * (c % d)) := by ring
          have hge : d ≤ 2 * (c % d) := Nat.le_of_mul_le_mul_left p hr
          by_cases c4 : d < 2 * (c % d)
          · have e2 : rndHalfEven c d = c / d + 1 := by
              unfold rndHalfEven; rw [if_neg (by omega), if_pos c4]
            rw [e, e2, hqe]
          · have cpar2 : ¬ (c / d) % 2 = 0 := by rw [← hqe]; exact cpar
            have e2 : rndHalfEven c d = c / d + 1 := by
              unfold rndHalfEven; rw [if_neg (by omega), if_neg (by omega), if_neg cpar2]
            rw [e, e2, hqe]

/-- In a binade, the rounded significand is at least `2^52`. -/
theorem rnd_lb {N D k q : Nat} (hD : 0 < D) (hlow : D * 2 ^ q ≤ N * 2 ^ k) :
    2 ^ 52 ≤ rndHalfEven (N * 2 ^ (52 + k)) (D * 2 ^ q) := by
  have hq : 2 ^ 52 ≤ N * 2 ^ (52 + k) / (D * 2 ^ q) := by
    rw [Nat.le_div_iff_mul_le (by positivity)]
    calc 2 ^ 52 * (D * 2 ^ q) = D * 2 ^ q * 2 ^ 52 := by ring
      _ ≤ N * 2 ^ k * 2 ^ 52 := Nat.mul_le_mul_right _ hlow
      _ = N * 2 ^ (52 + k) := by rw [pow_add 2 52 k]; ring
  exact le_trans hq (rndHalfEven_ge_div _ _)

/-- In a binade, the rounded significand is at most `2^53`. -/
theorem rnd_ub {N D k q : Nat} (hD : 0 < D) (hup : N * 2 ^ k < 2 * (D * 2 ^ q)) :
    rndHalfEven (N * 2 ^ (52 + k)) (D * 2 ^ q) ≤ 2 ^ 53 := by
  have hq : N * 2 ^ (52 + k) / (D * 2 ^ q) < 2 ^ 53 := by
    rw [Nat.div_lt_iff_lt_mul (by positivity)]
    calc N * 2 ^ (52 + k) = N * 2 ^ k * 2 ^ 52 := by rw [pow_add 2 52 k]; ring
      _ < 2 * (D * 2 ^ q) * 2 ^ 52 := mul_lt_mul_of_pos_right hup (by positivity)
      _ = 2 ^ 53 * (D * 2 ^ q) := by
          rw [show (2 : Nat) ^ 53 = 2 * 2 ^ 52 from by norm_num]; ring
  have := rndHalfEven_le_div_succ (N * 2 ^ (52 + k)) (D * 2 ^ q)
  omega

/-- Ordered values occupy ordered binades. -/
theorem binade_le {N1 D1 k1 q1 N2 D2 k2 q2 : Nat}
    (hD1 : 0 < D1) (_hD2 : 0 < D2)
    (b1l : D1 * 2 ^ q1 ≤ N1 * 2 ^ k1)
    (b2u : N2 * 2 ^ k2 < 2 * (D2 * 2 ^ q2))
    (hx : N1 * D2 ≤ N2 * D1) :
    q1 + k2 ≤ q2 + k1 := by
  by_contra hc
  push_neg at hc
  have s1 : D1 * D2 * 2 ^ (q1 + k2) ≤ N1 * D2 * 2 ^ (k1 + k2) := by
    have e1 : D1 * D2 * 2 ^ (q1 + k2) = D1 * 2 ^ q1 * (D2 * 2 ^ k2) := by
      rw [pow_add 2 q1 k2]; ring
    have e2 : N1 * D2 * 2 ^ (k1 + k2) = N1 * 2 ^ k1 * (D2 * 2 ^ k2) := by
      rw [pow_add 2 k1 k2]; ring
    rw [e1, e2]
    exact Nat.mul_le_mul_right _ b1l
  have s2 : N1 * D2 * 2 ^ (k1 + k2) ≤ N2 * D1 * 2 ^ (k1 + k2) :=
    Nat.mul_le_mul_right _ hx
  have s3 : N2 * D1 * 2 ^ (k1 + k2) < D1 * D2 * 2 ^ (q2 + k1 + 1) := by
    have e1 : N2 * D1 * 2 ^ (k1 + k2) = N2 * 2 ^ k2 * (D1 * 2 ^ k1) := by
      rw [pow_add 2 k1 k2]; ring
    have e2 : D1 * D2 * 2 ^ (q2 + k1 + 1) = 2 * (D2 * 2 ^ q2) * (D1 * 2 ^ k1) := by
      rw [pow_succ 2 (q2 + k1), pow_add 2 q2 k1]; ring
    rw [e1, e2]
    exact mul_lt_mul_of_pos_right b2u (by positivity)
  have s4 : D1 * D2 * 2 ^ (q2 + k1 + 1) ≤ D1 * D2 * 2 ^ (q1 + k2) :=
    Nat.mul_le_mul_left _ (Nat.pow_le_pow_right (by norm_num) (by omega))
  omega

/-- Monotonicity of the binade-scaled rounding step with respect to the
rational value. -/
theorem floatRoundAux_mono {N1 D1 k1 q1 N2 D2 k2 q2 : Nat}
    (hD1 : 0 < D1) (hD2 : 0 < D2)
    (b1l : D1 * 2 ^ q1 ≤ N1 * 2 ^ k1) (b1u : N1 * 2 ^ k1 < 2 * (D1 * 2 ^ q1))
    (b2l : D2 * 2 ^ q2 ≤ N2 * 2 ^ k2) (b2u : N2 * 2 ^ k2 < 2 * (D2 * 2 ^ q2))
    (hx : N1 * D2 ≤ N2 * D1) :
    (floatRoundAux N1 D1 k1 q1).1 * (floatRoundAux N2 D2 k2 q2).2
      ≤ (floatRoundAux N2 D2 k2 q2).1 * (floatRoundAux N1 D1 k1 q1).2 := by
  have horder : q1 + k2 ≤ q2 + k1 := binade_le hD1 hD2 b1l b2u hx
  unfold floatRoundAux
  dsimp only
  by_cases heq : q1 + k2 = q2 + k1
  · have hm : rndHalfEven (N1 * 2 ^ (52 + k1)) (D1 * 2 ^ q1)
        ≤ rndHalfEven (N2 * 2 ^ (52 + k2)) (D2 * 2 ^ q2) := by
      apply rndHalfEven_mono (by positivity) (by positivity)
      have ea : N1 * 2 ^ (52 + k1) * (D2 * 2 ^ q2) = N1 * D2 * 2 ^ (52 + k1 + q2) := by
        rw [pow_add 2 (52 + k1) q2]; ring
      have eb : N2 * 2 ^ (52 + k2) * (D1 * 2 ^ q1) = N2 * D1 * 2 ^ (52 + k2 + q1) := by
        rw [pow_add 2 (52 + k2) q1]; ring
      rw [ea, eb, show 52 + k2 + q1 = 52 + k1 + q2 from by omega]
      exact Nat.mul_le_mul_right _ hx
    have ea : rndHalfEven (N1 * 2 ^ (52 + k1)) (D1 * 2 ^ q1) * 2 ^ q1 * 2 ^ (52 + k2)
        = rndHalfEven (N1 * 2 ^ (52 + k1)) (D1 * 2 ^ q1) * 2 ^ (q1 + (52 + k2)) := by
      rw [pow_add 2 q1 (52 + k2)]; ring
    have eb : rndHalfEven (N2 * 2 ^ (52 + k2)) (D2 * 2 ^ q2) * 2 ^ q2 * 2 ^ (52 + k1)
        = rndHalfEven (N2 * 2 ^ (52 + k2)) (D2 * 2 ^ q2) * 2 ^ (q2 + (52 + k1)) := by
      rw [pow_add 2 q2 (52 + k1)]; ring
    rw [ea, eb, show q2 + (52 + k1) = q1 + (52 + k2) from by omega]
    exact Nat.mul_le_mul_right _ hm
  · have h1 : rndHalfEven (N1 * 2 ^ (52 + k1)) (D1 * 2 ^ q1) ≤ 2 ^ 53 := rnd_ub hD1 b1u
    have h2 : 2 ^ 52 ≤ rndHalfEven (N2 * 2 ^ (52 + k2)) (D2 * 2 ^ q2) := rnd_lb hD2 b2l
    calc rndHalfEven (N1 * 2 ^ (52 + k1)) (D1 * 2 ^ q1) * 2 ^ q1 * 2 ^ (52 + k2)
        ≤ 2 ^ 53 * 2 ^ q1 * 2 ^ (52 + k2) :=
          Nat.mul_le_mul_right _ (Nat.mul_le_mul_right _ h1)
      _ = 2 ^ (53 + q1 + (52 + k2)) := by
          rw [pow_add 2 (53 + q1) (52 + k2), pow_add 2 53 q1]
      _ ≤ 2 ^ (52 + q2 + (52 + k1)) :=
          Nat.pow_le_pow_right (by norm_num) (by omega)
      _ = 2 ^ 52 * 2 ^ q2 * 2 ^ (52 + k1) := by
          rw [pow_add 2 (52 + q2) (52 + k1), pow_add 2 52 q2]
      _ ≤ rndHalfEven (N2 * 2 ^ (52 + k2)) (D2 * 2 ^ q2) * 2 ^ q2 * 2 ^ (52 + k1) :=
          Nat.mul_le_mul_right _ (Nat.mul_le_mul_right _ h2)

/-- The branch selected by `floatRound` really is a binade-scaled
rounding step whose binade contains the input value. -/
theorem floatRound_eq_aux {N D : Nat} (hN : 0 < N) (hD : 0 < D) :
    ∃ k q, floatRound N D = floatRoundAux N D k q ∧
      D * 2 ^ q ≤ N * 2 ^ k ∧ N * 2 ^ k < 2 * (D * 2 ^ q) := by
  unfold floatRound
  rw [if_neg (by omega), if_neg (by omega)]
  by_cases hdn : D ≤ N
  · rw [if_pos hdn]
    have hdiv1 : 1 ≤ N / D := by rw [Nat.le_div_iff_mul_le hD]; omega
    obtain ⟨hl, hu⟩ := natLog2_spec (N / D) hdiv1
    have hgl : 2 ^ natLog2 (N / D) * D ≤ N := (Nat.le_div_iff_mul_le hD).mp hl
    have hgu : N < 2 ^ (natLog2 (N / D) + 1) * D := (Nat.div_lt_iff_lt_mul hD).mp hu
    refine ⟨0, natLog2 (N / D), rfl, ?_, ?_⟩
    · rw [pow_zero, Nat.mul_one]
      calc D * 2 ^ natLog2 (N / D) = 2 ^ natLog2 (N / D) * D := by ring
        _ ≤ N := hgl
    · rw [pow_zero, Nat.mul_one]
      calc N < 2 ^ (natLog2 (N / D) + 1) * D := hgu
        _ = 2 * (D * 2 ^ natLog2 (N / D)) := by rw [pow_succ 2 (natLog2 (N / D))]; ring
  · rw [if_neg hdn]
    have hdiv1 : 1 ≤ D / N := by rw [Nat.le_div_iff_mul_le hN]; omega
    obtain ⟨hl, hu⟩ := natLog2_spec (D / N) hdiv1
    have hjl : 2 ^ natLog2 (D / N) * N ≤ D := (Nat.le_div_iff_mul_le hN).mp hl
    have hju : D < 2 ^ (natLog2 (D / N) + 1) * N := (Nat.div_lt_iff_lt_mul hN).mp hu
    by_cases hsel : D ≤ N * 2 ^ natLog2 (D / N)
    · rw [if_pos hsel]
      refine ⟨natLog2 (D / N), 0, rfl, ?_, ?_⟩
      · rw [pow_zero, Nat.mul_one]
        exact hsel
      · rw [pow_zero, Nat.mul_one]
        calc N * 2 ^ natLog2 (D / N) = 2 ^ natLog2 (D / N) * N := by ring
          _ ≤ D := hjl
          _ < 2 * D := by omega
    · rw [if_neg hsel]
      refine ⟨natLog2 (D / N) + 1, 0, rfl, ?_, ?_⟩
      · rw [pow_zero, Nat.mul_one]
        have hlt : D < N * 2 ^ (natLog2 (D / N) + 1) := by
          calc D < 2 ^ (natLog2 (D / N) + 1) * N := hju
            _ = N * 2 ^ (natLog2 (D / N) + 1) := by ring
        omega
      · rw [pow_zero, Nat.mul_one]
        have hsl : N * 2 ^ natLog2 (D / N) < D := by omega
        calc N * 2 ^ (natLog2 (D / N) + 1) = 2 * (N * 2 ^ natLog2 (D / N)) := by
              rw [pow_succ 2 (natLog2 (D / N))]; ring
          _ < 2 * D := by omega

/-- Both components of a rounded positive rational are positive. -/
theorem floatRound_pos {N D : Nat} (hN : 0 < N) (hD : 0 < D) :
    0 < (floatRound N D).1 ∧ 0 < (floatRound N D).2 := by
  obtain ⟨k, q, heq, hl, _⟩ := floatRound_eq_aux hN hD
  rw [heq]
  unfold floatRoundAux
  dsimp only
  constructor
  · have hm := rnd_lb hD hl
    have h52 : (0 : Nat) < 2 ^ 52 := by positivity
    exact Nat.mul_pos (by omega) (by positivity)
  · positivity

/-- Correct rounding is monotone with respect to the rational value. -/
theorem floatRound_mono {N1 D1 N2 D2 : Nat} (hN1 : 0 < N1) (hD1 : 0 < D1)
    (hN2 : 0 < N2) (hD2 : 0 < D2) (hx : N1 * D2 ≤ N2 * D1) :
    (floatRound N1 D1).1 * (floatRound N2 D2).2
      ≤ (floatRound N2 D2).1 * (floatRound N1 D1).2 := by
  obtain ⟨k1, q1, e1, b1l, b1u⟩ := floatRound_eq_aux hN1 hD1
  obtain ⟨k2, q2, e2, b2l, b2u⟩ := floatRound_eq_aux hN2 hD2
  rw [e1, e2]
  exact floatRoundAux_mono hD1 hD2 b1l b1u b2l b2u hx

/-- The value 1 is exactly representable: rounding `N / N` is exact. -/
theorem floatRound_one {N : Nat} (hN : 0 < N) :
    floatRound N N = (2 ^ 52, 2 ^ 52) := by
  unfold floatRound
  rw [if_neg (by omega), if_neg (by omega), if_pos (Nat.le_refl N), Nat.div_self hN]
  rw [show natLog2 1 = 0 from rfl]
  unfold floatRoundAux
  have e : N * 2 ^ (52 + 0) = N * 2 ^ 0 * 2 ^ 52 := by
    rw [pow_add 2 52 0]; ring
  rw [e, rndHalfEven_exact (2 ^ 52) (by positivity)]
  norm_num

/-- The value 100 is exactly representable: rounding `(x*100) / x` is
exact. -/
theorem floatRound_hundred {x : Nat} (hx : 0 < x) :
    floatRound (x * 100) x = (2 ^ 52 * 100, 2 ^ 52) := by
  unfold floatRound
  rw [if_neg (by positivity), if_neg (by omega),
    if_pos (Nat.le_mul_of_pos_right x (by norm_num)),
    Nat.mul_div_cancel_left 100 hx]
  rw [show natLog2 100 = 6 from rfl]
  unfold floatRoundAux
  have e : x * 100 * 2 ^ (52 + 0) = x * 2 ^ 6 * (2 ^ 46 * 100) := by
    rw [pow_add 2 52 0, show (2 : Nat) ^ 52 = 2 ^ 6 * 2 ^ 46 from by norm_num]; ring
  rw [e, rndHalfEven_exact (2 ^ 46 * 100) (by positivity)]
  norm_num

/-- The emitted progress value never exceeds 100: the quotient rounds to
at most the representable value 1, the product to at most the
representable value 100, and truncation can only go down. -/
theorem pyProgress_le_100 {total i : Nat} (h : i + 1 ≤ total) :
    pyProgress total i ≤ 100 := by
  have ht : 0 < total := by omega
  have hi : 0 < i + 1 := by omega
  obtain ⟨hp1, hp2⟩ := floatRound_pos hi ht
  have hmono1 := floatRound_mono hi ht ht ht
    (show (i + 1) * total ≤ total * total from Nat.mul_le_mul_right total h)
  rw [floatRound_one ht] at hmono1
  dsimp only at hmono1
  have hf1 : (floatRound (i + 1) total).1 ≤ (floatRound (i + 1) total).2 := by
    have e : (floatRound (i + 1) total).1 * 2 ^ 52
        ≤ (floatRound (i + 1) total).2 * 2 ^ 52 := by
      calc (floatRound (i + 1) total).1 * 2 ^ 52
          ≤ 2 ^ 52 * (floatRound (i + 1) total).2 := hmono1
        _ = (floatRound (i + 1) total).2 * 2 ^ 52 := by ring
    exact Nat.le_of_mul_le_mul_right e (by positivity)
  obtain ⟨hq1, hq2⟩ := floatRound_pos (Nat.mul_pos hp1 (show (0 : Nat) < 100 from by norm_num)) hp2
  have hmono2 := floatRound_mono (Nat.mul_pos hp1 (show (0 : Nat) < 100 from by norm_num)) hp2
    (Nat.mul_pos hp2 (show (0 : Nat) < 100 from by norm_num)) hp2
    (show (floatRound (i + 1) total).1 * 100 * (floatRound (i + 1) total).2
        ≤ (floatRound (i + 1) total).2 * 100 * (floatRound (i + 1) total).2 from
      Nat.mul_le_mul_right _ (Nat.mul_le_mul_right 100 hf1))
  rw [floatRound_hundred hp2] at hmono2
  dsimp only at hmono2
  have hf2 : (floatRound ((floatRound (i + 1) total).1 * 100) (floatRound (i + 1) total).2).1
      ≤ 100 *
        (floatRound ((floatRound (i + 1) total).1 * 100) (floatRound (i + 1) total).2).2 := by
    have e : (floatRound ((floatRound (i + 1) total).1 * 100) (floatRound (i + 1) total).2).1
          * 2 ^ 52
        ≤ (100 *
            (floatRound ((floatRound (i + 1) total).1 * 100) (floatRound (i + 1) total).2).2)
          * 2 ^ 52 := by
      calc (floatRound ((floatRound (i + 1) total).1 * 100) (floatRound (i + 1) total).2).1
            * 2 ^ 52
          ≤ 2 ^ 52 * 100 *
              (floatRound ((floatRound (i + 1) total).1 * 100)
                (floatRound (i + 1) total).2).2 := hmono2
        _ = (100 *
              (floatRound ((floatRound (i + 1) total).1 * 100)
                (floatRound (i + 1) total).2).2) * 2 ^ 52 := by ring
    exact Nat.le_of_mul_le_mul_right e (by positivity)
  unfold pyProgress
  dsimp only
  have hres := div_le_div_of_cross hq2 (show (0 : Nat) < 1 by norm_num)
    (show (floatRound ((floatRound (i + 1) total).1 * 100) (floatRound (i + 1) total).2).1 * 1
        ≤ 100 *
          (floatRound ((floatRound (i + 1) total).1 * 100) (floatRound (i + 1) total).2).2 from
      by simpa using hf2)
  simpa using hres

/-- The emitted progress value is monotone in the recipient position:
both roundings and the final truncation are monotone. -/
theorem pyProgress_mono {total i j : Nat} (ht : 0 < total) (hij : i ≤ j) :
    pyProgress total i ≤ pyProgress total j := by
  have hi : 0 < i + 1 := by omega
  have hj : 0 < j + 1 := by omega
  obtain ⟨ha1, ha2⟩ := floatRound_pos hi ht
  obtain ⟨hb1, hb2⟩ := floatRound_pos hj ht
  have h1 := floatRound_mono hi ht hj ht
    (show (i + 1) * total ≤ (j + 1) * total from Nat.mul_le_mul_right total (by omega))
  have h2 := floatRound_mono (Nat.mul_pos ha1 (show (0 : Nat) < 100 from by norm_num)) ha2
    (Nat.mul_pos hb1 (show (0 : Nat) < 100 from by norm_num)) hb2
    (show (floatRound (i + 1) total).1 * 100 * (floatRound (j + 1) total).2
        ≤ (floatRound (j + 1) total).1 * 100 * (floatRound (i + 1) total).2 from by
      calc (floatRound (i + 1) total).1 * 100 * (floatRound (j + 1) total).2
          = (floatRound (i + 1) total).1 * (floatRound (j + 1) total).2 * 100 := by ring
        _ ≤ (floatRound (j + 1) total).1 * (floatRound (i + 1) total).2 * 100 :=
            Nat.mul_le_mul_right 100 h1
        _ = (floatRound (j + 1) total).1 * 100 * (floatRound (i + 1) total).2 := by ring)
  have hpa := floatRound_pos (Nat.mul_pos ha1 (show (0 : Nat) < 100 from by norm_num)) ha2
  have hpb := floatRound_pos (Nat.mul_pos hb1 (show (0 : Nat) < 100 from by norm_num)) hb2
  unfold pyProgress
  dsimp only
  exact div_le_div_of_cross hpa.2 hpb.2 h2

theorem map_range_shift {α : Type} (f : Nat → α) (m i : Nat) :
    f i :: (List.range m).map (fun k => f (i + 1 + k))
      = (List.range (m + 1)).map (fun k => f (i + k)) := by
  rw [List.range_succ_eq_map, List.map_cons, List.map_map]
  simp only [Nat.add_zero]
  congr 1
  apply List.map_congr_left
  intro a _
  simp only [Function.comp_apply]
  congr 1
  omega

theorem runLoop_progress_trace (inp : RunInput) (total : Nat) :
    ∀ (rows : List Row) (i : Nat) (st : RunState),
      ∃ m, (runLoop inp total i rows st).processed = st.processed + m ∧
        m ≤ rows.length ∧
        (runLoop inp total i rows st).progresses
          = st.progresses ++ (List.range m).map (fun k => pyProgress total (i + k)) := by
  intro rows
  induction rows with
  | nil =>
    intro i st
    exact ⟨0, by simp [runLoop], by simp, by simp [runLoop]⟩
  | cons r rest ih =>
    intro i st
    by_cases hstop : stopNow inp.stopAt i = true
    · refine ⟨0, ?_, by simp, ?_⟩
      · rw [runLoop, if_pos hstop]
        simp
      · rw [runLoop, if_pos hstop]
        simp
    · obtain ⟨m, hm1, hm2, hm3⟩ := ih (i + 1) (stepRow inp total i r st)
      obtain ⟨c1, c2, c3, c4⟩ := stepRow_counts inp total i r st
      refine ⟨m + 1, ?_, by simp; omega, ?_⟩
      · rw [runLoop, if_neg hstop]
        omega
      · rw [runLoop, if_neg hstop, hm3, c4, List.append_assoc]
        congr 1
        rw [List.singleton_append]
        exact map_range_shift (fun k => pyProgress total k) m i

/-- C6 amended: the emitted progress value for the recipient at position
index is the binary64 evaluation of `int(((index+1)/total)*100)` —
truncation of the correctly rounded float product, not `round`; it can
even land one below the exact floor when the float rounding falls just
under an integer (total = 100, index = 28 emits 28 while the exact floor
is 29).  The emitted sequence is still integers 0–100, monotonically
non-decreasing within one run. -/
theorem C6_progress_truncation (inp : RunInput) (hc : inp.connectOk = true) :
    (run inp).progresses
      = (List.range (run inp).processed).map
          (fun k => pyProgress inp.recipients.length k) ∧
    (run inp).progresses.Pairwise (fun a b => a ≤ b) ∧
    (∀ p ∈ (run inp).progresses, p ≤ 100) ∧
    pyProgress 3 1 = 66 ∧
    pyProgress 100 28 = 28 ∧
    100 * (28 + 1) / 100 = 29 := by
  obtain ⟨m, hm1, hm2, hm3⟩ :=
    runLoop_progress_trace inp inp.recipients.length inp.recipients 0 initState
  have hrw : (run inp).progresses
      = (runLoop inp inp.recipients.length 0 inp.recipients initState).progresses := by
    unfold run
    rw [if_pos (by rw [hc])]
  have hrwp : (run inp).processed
      = (runLoop inp inp.recipients.length 0 inp.recipients initState).processed := by
    unfold run
    rw [if_pos (by rw [hc])]
  have hm : (run inp).processed = m := by
    rw [hrwp, hm1]
    simp [initState]
  have hprog : (run inp).progresses
      = (List.range m).map (fun k => pyProgress inp.recipients.length k) := by
    rw [hrw, hm3]
    simp only [initState, List.nil_append]
    apply List.map_congr_left
    intro a _
    congr 1
    omega
  refine ⟨by rw [hprog, hm], ?_, ?_, by decide, by decide, by decide⟩
  · rw [hprog]
    by_cases hm0 : m = 0
    · subst hm0
      simp
    · have ht : 0 < inp.recipients.length := by omega
      refine List.Pairwise.map _ ?_ (List.sorted_lt_range m)
      intro a b hab
      exact pyProgress_mono ht (by omega)
  · rw [hprog]
    intro p hp
    rcases List.mem_map.mp hp with ⟨k, hk, rfl⟩
    have hkm : k < m := List.mem_range.mp hk
    exact pyProgress_le_100 (by omega)

/-- Witness for C6: the three-recipient run, instantiating monotonicity
and the 0–100 bound of the amended theorem. -/
theorem C6_progress_truncation_witness :
    (run ⟨[[("Email", "a@x.com")], [("Email", "b@x.com")], [("Email", "c@x.com")]], "s", "b",
        true, none, fun _ => SendResult.ok⟩).progresses.Pairwise (fun a b => a ≤ b) ∧
    (∀ p ∈ (run ⟨[[("Email", "a@x.com")], [("Email", "b@x.com")], [("Email", "c@x.com")]], "s",
        "b", true, none, fun _ => SendResult.ok⟩).progresses, p ≤ 100) := by
  have h := C6_progress_truncation
    ⟨[[("Email", "a@x.com")], [("Email", "b@x.com")], [("Email", "c@x.com")]], "s", "b",
      true, none, fun _ => SendResult.ok⟩ rfl
  exact ⟨h.2.1, h.2.2.1⟩

/-- C6 counterexample: with 3 recipients, the progress emitted after the
recipient at position 1 is `int((2/3)*100) = 66` under binary64
arithmetic, while the claim's `round(100*2/3) = 67`. -/
theorem C6_claim_counterexample :
    (run ⟨[[("Email", "a@x.com")], [("Email", "b@x.com")], [("Email", "c@x.com")]], "s", "b",
        true, none, fun _ => SendResult.ok⟩).progresses = [33, 66, 100] ∧
    specRoundProgress 3 1 = 67 ∧
    (run ⟨[[("Email", "a@x.com")], [("Email", "b@x.com")], [("Email", "c@x.com")]], "s", "b",
        true, none, fun _ => SendResult.ok⟩).progresses[1]? ≠ some (specRoundProgress 3 1) := by
  decide

/-! ## C8 -/

theorem connectGo_attempts_le (oracle : Nat → ConnAttempt) :
    ∀ (fuel attempt : Nat) (sleeps : List Nat),
      (connectGo oracle fuel attempt sleeps).attempts ≤ attempt + fuel := by
  intro fuel
  induction fuel with
  | zero => intro attempt sleeps; simp [connectGo]
  | succ n ih =>
    intro attempt sleeps
    unfold connectGo
    cases oracle attempt with
    | ok => dsimp only; omega
    | authFail => dsimp only; omega
    | transientFail =>
      dsimp only
      by_cases h2 : attempt < 2
      · rw [if_pos h2]
        have := ih (attempt + 1) (sleeps ++ [5])
        omega
      · rw [if_neg h2]
        dsimp only
        omega

theorem connectGo_attempts_ge (oracle : Nat → ConnAttempt) :
    ∀ (fuel attempt : Nat) (sleeps : List Nat), 0 < fuel →
      attempt + 1 ≤ (connectGo oracle fuel attempt sleeps).attempts := by
  intro fuel
  induction fuel with
  | zero => intro attempt sleeps h; omega
  | succ n ih =>
    intro attempt sleeps _
    unfold connectGo
    cases oracle attempt with
    | ok => dsimp only; omega
    | authFail => dsimp only; omega
    | transientFail =>
      dsimp only
      by_cases h2 : attempt < 2
      · rw [if_pos h2]
        cases n with
        | zero => dsimp only [connectGo]; omega
        | succ k =>
          have := ih (attempt + 1) (sleeps ++ [5]) (by omega)
          omega
      · rw [if_neg h2]

theorem connectGo_sleeps (oracle : Nat → ConnAttempt) :
    ∀ (fuel attempt : Nat) (sleeps : List Nat), fuel + attempt = 3 →
      (connectGo oracle fuel attempt sleeps).sleeps
        = sleeps ++ List.replicate ((connectGo oracle fuel attempt sleeps).attempts - 1 - attempt) 5 := by
  intro fuel
  induction fuel with
  | zero =>
    intro attempt sleeps _
    simp [connectGo]
  | succ n ih =>
    intro attempt sleeps hsum
    unfold connectGo
    cases oracle attempt with
    | ok => dsimp only; simp
    | authFail => dsimp only; simp
    | transientFail =>
      dsimp only
      by_cases h2 : attempt < 2
      · rw [if_pos h2]
        have hn : 0 < n := by omega
        have hge := connectGo_attempts_ge oracle n (attempt + 1) (sleeps ++ [5]) hn
        have heq := ih (attempt + 1) (sleeps ++ [5]) (by omega)
        rw [heq, List.append_assoc]
        congr 1
        have hd : (connectGo oracle n (attempt + 1) (sleeps ++ [5])).attempts - 1 - attempt
            = ((connectGo oracle n (attempt + 1) (sleeps ++ [5])).attempts - 1 - (attempt + 1)) + 1 := by
          omega
        rw [hd, List.replicate_succ]
        rfl
      · rw [if_neg h2]
        dsimp only
        simp

theorem connectGo_prefix_transient (oracle : Nat → ConnAttempt) :
    ∀ (fuel attempt : Nat) (sleeps : List Nat),
      (∀ k, k < attempt → oracle k = ConnAttempt.transientFail) →
      ∀ k, k + 1 < (connectGo oracle fuel attempt sleeps).attempts →
        oracle k = ConnAttempt.transientFail := by
  intro fuel
  induction fuel with
  | zero =>
    intro attempt sleeps hpre k hk
    simp [connectGo] at hk
    exact hpre k (by omega)
  | succ n ih =>
    intro attempt sleeps hpre k hk
    rw [connectGo] at hk
    cases ho : oracle attempt with
    | ok =>
      rw [ho] at hk
      simp at hk
      exact hpre k (by omega)
    | authFail =>
      rw [ho] at hk
      simp at hk
      exact hpre k (by omega)
    | transientFail =>
      rw [ho] at hk
      by_cases h2 : attempt < 2
      · rw [if_pos h2] at hk
        refine ih (attempt + 1) (sleeps ++ [5]) ?_ k hk
        intro j hj
        by_cases hja : j < attempt
        · exact hpre j hja
        · have : j = attempt := by omega
          rw [this]
          exact ho
      · rw [if_neg h2] at hk
        simp at hk
        exact hpre k (by omega)

theorem connectGo_auth_iff (oracle : Nat → ConnAttempt) :
    ∀ (fuel attempt : Nat) (sleeps : List Nat), fuel + attempt = 3 → 0 < fuel →
      ((connectGo oracle fuel attempt sleeps).result = ConnResult.authFailed ↔
        oracle ((connectGo oracle fuel attempt sleeps).attempts - 1) = ConnAttempt.authFail) := by
  intro fuel
  induction fuel with
  | zero => intro attempt sleeps _ h; omega
  | succ n ih =>
    intro attempt sleeps hsum _
    unfold connectGo
    cases ho : oracle attempt with
    | ok => dsimp only; simp [ho]
    | authFail => dsimp only; simp [ho]
    | transientFail =>
      dsimp only
      by_cases h2 : attempt < 2
      · rw [if_pos h2]
        exact ih (attempt + 1) (sleeps ++ [5]) (by omega) (by omega)
      · rw [if_neg h2]
        dsimp only
        simp [ho]

/-- C8: the connection routine makes between 1 and 3 attempts, sleeps 5
time units exactly once between each pair of consecutive attempts, ends
in the exhausted connect failure after 3 all-transient attempts, only
ever retries after a transient failure (every non-final attempt is
transient, so an authentication failure is never retried), and reports
an authentication failure exactly when the final attempt was one. -/
theorem C8_retry_policy (oracle : Nat → ConnAttempt) :
    (1 ≤ (connect_smtp oracle).attempts ∧ (connect_smtp oracle).attempts ≤ 3) ∧
    (connect_smtp oracle).sleeps = List.replicate ((connect_smtp oracle).attempts - 1) 5 ∧
    ((∀ k, k < 3 → oracle k = ConnAttempt.transientFail) →
      connect_smtp oracle = ⟨ConnResult.exhausted, 3, [5, 5]⟩) ∧
    (∀ k, k + 1 < (connect_smtp oracle).attempts → oracle k = ConnAttempt.transientFail) ∧
    ((connect_smtp oracle).result = ConnResult.authFailed ↔
      oracle ((connect_smtp oracle).attempts - 1) = ConnAttempt.authFail) := by
  refine ⟨⟨?_, ?_⟩, ?_, ?_, ?_, ?_⟩
  · exact connectGo_attempts_ge oracle 3 0 [] (by omega)
  · have := connectGo_attempts_le oracle 3 0 []
    unfold connect_smtp
    omega
  · have := connectGo_sleeps oracle 3 0 [] (by omega)
    unfold connect_smtp
    simpa using this
  · intro hall
    unfold connect_smtp
    simp [connectGo, hall 0 (by omega), hall 1 (by omega), hall 2 (by omega)]
  · intro k hk
    exact connectGo_prefix_transient oracle 3 0 [] (by omega) k hk
  · exact connectGo_auth_iff oracle 3 0 [] (by omega) (by omega)

/-- Witness for C8: all-transient attempts exhaust the retries with two
sleeps; an authentication failure on the second attempt is reported as
an authentication failure after exactly two attempts. -/
theorem C8_retry_policy_witness :
    connect_smtp (fun _ => ConnAttempt.transientFail) = ⟨ConnResult.exhausted, 3, [5, 5]⟩ ∧
    (connect_smtp (fun k => if k == 0 then ConnAttempt.transientFail
        else ConnAttempt.authFail)).result = ConnResult.authFailed := by
  constructor
  · exact (C8_retry_policy (fun _ => ConnAttempt.transientFail)).2.2.1 (fun k _ => rfl)
  · exact ((C8_retry_policy (fun k => if k == 0 then ConnAttempt.transientFail
      else ConnAttempt.authFail)).2.2.2.2).mpr (by decide)

end EmailApp
